import Mathlib

/-!
Verification of the repository-reference manager logic of `cc-switch`
(`src/components/skills/RepoManagerPanel.tsx` and
`src/components/skills/RepoManager.tsx`).

JavaScript strings are modelled as `List Char`; the JS string operations the
code uses (`trim`, anchored regex replace of a fixed alternative, `split` on
`"/"`, truthiness of a string) are given explicit executable definitions below
with JS semantics. The i18n translation function `t` and the host URL
constructor are external collaborators and appear as parameters.
-/

/-- JS string type in this model. -/
abbrev Str := List Char

/-- Shorthand: the character list of a string literal. -/
def str (s : String) : Str := s.data

/-- The ASCII whitespace characters stripped by JS `String.prototype.trim`
(the full JS set also holds exotic Unicode spaces, irrelevant here). -/
def isJsWs (c : Char) : Bool :=
  c = ' ' || c = '\t' || c = '\n' || c = '\r' || c = '\x0b' || c = '\x0c'

/-- JS `s.trim()`: strip leading and trailing whitespace. -/
def trimStr (s : Str) : Str :=
  ((s.dropWhile isJsWs).reverse.dropWhile isJsWs).reverse

/-- `isPre p s` holds when `p` is a leading segment of `s`
(JS: the anchored regex `^p` matches `s`). -/
def isPre : Str → Str → Bool
  | [], _ => true
  | _ :: _, [] => false
  | a :: p, b :: s => a = b && isPre p s

/-- `endsStr suf s`: JS anchored regex `suf$` matches `s`. -/
def endsStr (suf s : Str) : Bool :=
  isPre suf.reverse s.reverse

/-- Replace-with-empty of the anchored pattern `p` at the front of `s`
(JS `s.replace(/^p/, "")` for a literal `p`). -/
def stripPre (p s : Str) : Str :=
  if isPre p s then s.drop p.length else s

/-- Replace-with-empty of the anchored pattern `p` at the end of `s`
(JS `s.replace(/p$/, "")` for a literal `p`). -/
def stripSuf (p s : Str) : Str :=
  if endsStr p s then (s.reverse.drop p.length).reverse else s

/-- JS `s.split("/")`: splitting the empty string gives `[""]`, and every
`"/"` separates two (possibly empty) fields. -/
def splitSlash : Str → List Str
  | [] => [[]]
  | c :: rest =>
    if c = '/' then [] :: splitSlash rest
    else
      match splitSlash rest with
      | h :: t => (c :: h) :: t
      | [] => [[c]]

/-- The anchored replace of `^https?:\/\/github\.com\//` with the empty
string: a leading `https://github.com/` or `http://github.com/` is removed,
anything else is left alone. -/
def stripGithubHost (s : Str) : Str :=
  if isPre (str "https://github.com/") s then stripPre (str "https://github.com/") s
  else stripPre (str "http://github.com/") s

/-- JS `x || "main"` on an optional string field: `undefined` and `""` are
falsy and yield `"main"`. -/
def orMain (o : Option Str) : Str :=
  match o with
  | none => str "main"
  | some s => if s = [] then str "main" else s

/-- Kind tag of a repository record (`RepoType` in `@/lib/api/skills`). -/
inductive RepoType
  | github
  | zip
deriving DecidableEq, Repr

/-- Modelled from the spec: the type `SkillRepo` is imported from
`@/lib/api/skills`, which is not part of the given sources; its field shapes
follow spec §3 (`RepositoryReference`) and every use in the two components:
`owner`, `name` strings, optional `branch`, `enabled` flag, optional
`zipUrl` present for package links. -/
structure SkillRepo where
  repoType : RepoType
  owner : Str
  name : Str
  branch : Option Str
  enabled : Bool
  zipUrl : Option Str
deriving DecidableEq, Repr

/-- Modelled from the spec: the type `DiscoverableSkill` is imported from
`@/lib/api/skills`, not in the given sources; per spec §3 (`DiscoveredSkill`)
it carries `repoOwner`, `repoName` and an optional `repoBranch`. -/
structure DiscoverableSkill where
  repoOwner : Str
  repoName : Str
  repoBranch : Option Str
deriving DecidableEq, Repr

/-- Outcome of the external `onAdd` collaborator: the promise resolves, or
rejects with either a JS `Error` (carrying `message`) or a non-`Error`
value. -/
inductive AddOutcome
  | ok
  | fail (e : Option Str)
deriving DecidableEq, Repr

/-- The local component state touched by the two submit handlers: the four
form fields and the error line. -/
structure FormState where
  repoUrl : Str
  branch : Str
  zipName : Str
  zipUrl : Str
  error : Str
deriving DecidableEq, Repr

namespace RepoManagerPanel

/-- `getSkillCount` of `RepoManagerPanel.tsx` (lines 38-49). -/
def getSkillCount (repo : SkillRepo) (skills : List DiscoverableSkill) : Nat :=
  match repo.repoType with
  | .zip => (skills.filter (fun skill => skill.repoName == repo.name)).length
  | .github =>
    (skills.filter (fun skill =>
      skill.repoOwner == repo.owner &&
      skill.repoName == repo.name &&
      orMain skill.repoBranch == orMain repo.branch)).length

/-- `parseRepoUrl` of `RepoManagerPanel.tsx` (lines 51-64): trim, strip
`^https?:\/\/github\.com\//`, strip `\.git$`, split on `"/"`, succeed on
exactly two truthy parts. -/
def parseRepoUrl (url : Str) : Option (Str × Str) :=
  let c1 := trimStr url
  let c2 := stripGithubHost c1
  let c3 := stripSuf (str ".git") c2
  match splitSlash c3 with
  | [a, b] => if a ≠ [] ∧ b ≠ [] then some (a, b) else none
  | _ => none

/-- `getRepoDisplayName` of `RepoManagerPanel.tsx` (lines 147-152). -/
def getRepoDisplayName (repo : SkillRepo) : Str :=
  match repo.repoType with
  | .zip => repo.name
  | .github => repo.owner ++ '/' :: repo.name

/-- `getRepoSubtitle` of `RepoManagerPanel.tsx` (lines 154-159); `t` is the
i18n collaborator. -/
def getRepoSubtitle (t : Str → Str) (repo : SkillRepo) : Str :=
  match repo.repoType with
  | .zip => repo.zipUrl.getD []
  | .github => t (str "skills.repo.branch") ++ ':' :: ' ' :: orMain repo.branch

/-- Result of the package-link validation sequence at the head of
`handleAddZip` (lines 94-114): the first failing rule wins, success carries
the trimmed name/url pair handed to `onAdd`. `isUrl` stands for the host
`new URL(...)` constructor succeeding. -/
inductive ZipValidation
  | nameRequired
  | urlRequired
  | invalidUrl
  | ok (name url : Str)
deriving DecidableEq, Repr

/-- The validation sequence of `handleAddZip` (lines 94-114) as a function. -/
def validatePackageLink (isUrl : Str → Bool) (name url : Str) : ZipValidation :=
  if trimStr name = [] then .nameRequired
  else if trimStr url = [] then .urlRequired
  else if isUrl (trimStr url) = false then .invalidUrl
  else .ok (trimStr name) (trimStr url)

/-- `handleAddGithub` (lines 66-89). Returns the state after the handler and
its `.then`/`.catch` continuations settle, paired with the list of `onAdd`
calls it made. `t` is the i18n collaborator, `onAdd` the external add. -/
def handleAddGithub (t : Str → Str) (onAdd : SkillRepo → AddOutcome)
    (s : FormState) : FormState × List SkillRepo :=
  let s0 : FormState := { s with error := [] }
  match parseRepoUrl s.repoUrl with
  | none => ({ s0 with error := t (str "skills.repo.invalidUrl") }, [])
  | some (owner, name) =>
    let repo : SkillRepo :=
      { repoType := .github
        owner := owner
        name := name
        branch := some (if s.branch = [] then str "main" else s.branch)
        enabled := true
        zipUrl := none }
    match onAdd repo with
    | .ok => ({ s0 with repoUrl := [], branch := [] }, [repo])
    | .fail e =>
      ({ s0 with
          error := match e with
            | some m => m
            | none => t (str "skills.repo.addFailed") }, [repo])

/-- `handleAddZip` (lines 91-131), same conventions as `handleAddGithub`;
`isUrl` stands for the host `new URL(...)` constructor succeeding. -/
def handleAddZip (t : Str → Str) (isUrl : Str → Bool)
    (onAdd : SkillRepo → AddOutcome) (s : FormState) :
    FormState × List SkillRepo :=
  let s0 : FormState := { s with error := [] }
  match validatePackageLink isUrl s.zipName s.zipUrl with
  | .nameRequired => ({ s0 with error := t (str "skills.repo.nameRequired") }, [])
  | .urlRequired => ({ s0 with error := t (str "skills.repo.zipUrlRequired") }, [])
  | .invalidUrl => ({ s0 with error := t (str "skills.repo.invalidZipUrl") }, [])
  | .ok name url =>
    let repo : SkillRepo :=
      { repoType := .zip
        owner := str "zip"
        name := name
        branch := some []
        enabled := true
        zipUrl := some url }
    match onAdd repo with
    | .ok => ({ s0 with zipName := [], zipUrl := [] }, [repo])
    | .fail e =>
      ({ s0 with
          error := match e with
            | some m => m
            | none => t (str "skills.repo.addFailed") }, [repo])

end RepoManagerPanel

namespace RepoManagerDialog

/-- `getSkillCount` of `RepoManager.tsx` (lines 46-56). -/
def getSkillCount (repo : SkillRepo) (skills : List DiscoverableSkill) : Nat :=
  match repo.repoType with
  | .zip => (skills.filter (fun skill => skill.repoName == repo.name)).length
  | .github =>
    (skills.filter (fun skill =>
      skill.repoOwner == repo.owner &&
      skill.repoName == repo.name &&
      orMain skill.repoBranch == orMain repo.branch)).length

/-- `parseRepoUrl` of `RepoManager.tsx` (lines 58-71). -/
def parseRepoUrl (url : Str) : Option (Str × Str) :=
  let c1 := trimStr url
  let c2 := stripGithubHost c1
  let c3 := stripSuf (str ".git") c2
  match splitSlash c3 with
  | [a, b] => if a ≠ [] ∧ b ≠ [] then some (a, b) else none
  | _ => none

/-- `getRepoDisplayName` of `RepoManager.tsx` (lines 153-158). -/
def getRepoDisplayName (repo : SkillRepo) : Str :=
  match repo.repoType with
  | .zip => repo.name
  | .github => repo.owner ++ '/' :: repo.name

/-- `getRepoSubtitle` of `RepoManager.tsx` (lines 160-165). -/
def getRepoSubtitle (t : Str → Str) (repo : SkillRepo) : Str :=
  match repo.repoType with
  | .zip => repo.zipUrl.getD []
  | .github => t (str "skills.repo.branch") ++ ':' :: ' ' :: orMain repo.branch

end RepoManagerDialog

/-- Rewrite a skill whose branch field is absent so that it carries the
explicit empty string instead; other skills are untouched. -/
def blankSkillBranch (sk : DiscoverableSkill) : DiscoverableSkill :=
  if sk.repoBranch = none then { sk with repoBranch := some [] } else sk

theorem beq_eq_decide_eq {α : Type} [DecidableEq α] [BEq α] [LawfulBEq α]
    (a b : α) : (a == b) = decide (a = b) := by
  by_cases h : a = b <;> simp [h]

theorem isPre_iff (p s : Str) : isPre p s = true ↔ ∃ t, s = p ++ t := by
  induction p generalizing s with
  | nil =>
    simp only [isPre, List.nil_append, true_iff]
    exact ⟨s, rfl⟩
  | cons a p ih =>
    cases s with
    | nil =>
      simp only [isPre]
      constructor
      · intro h
        exact absurd h Bool.false_ne_true
      · rintro ⟨t, h⟩
        exact List.noConfusion h
    | cons b s' =>
      simp only [isPre, Bool.and_eq_true, decide_eq_true_eq, ih, List.cons_append]
      constructor
      · rintro ⟨rfl, t, rfl⟩
        exact ⟨t, rfl⟩
      · rintro ⟨t, h⟩
        injection h with hab hs
        exact ⟨hab.symm, t, hs⟩

theorem isPre_append (p t : Str) : isPre p (p ++ t) = true :=
  (isPre_iff p _).mpr ⟨t, rfl⟩

theorem count_le_of_isPre (c : Char) (p s : Str) (h : isPre p s = true) :
    p.count c ≤ s.count c := by
  obtain ⟨t, rfl⟩ := (isPre_iff p s).mp h
  rw [List.count_append]
  exact Nat.le_add_right _ _

theorem isPre_false_of_head (a b : Char) (p s : Str) (hne : a ≠ b) :
    isPre (a :: p) (b :: s) = false := by
  simp [isPre, hne]

theorem stripPre_append (p t : Str) : stripPre p (p ++ t) = t := by
  rw [stripPre, if_pos (isPre_append p t), List.drop_left]

theorem stripPre_of_not (p s : Str) (h : isPre p s = false) : stripPre p s = s := by
  simp [stripPre, h]

theorem endsStr_append (p x : Str) : endsStr p (x ++ p) = true := by
  rw [endsStr, List.reverse_append]
  exact isPre_append _ _

theorem stripSuf_append (p x : Str) : stripSuf p (x ++ p) = x := by
  rw [stripSuf, if_pos (endsStr_append p x), List.reverse_append]
  have hlen : p.reverse.length = p.length := List.length_reverse p
  rw [← hlen, List.drop_left, List.reverse_reverse]

theorem stripSuf_count (c : Char) (p s : Str) (hc : c ∉ p) :
    (stripSuf p s).count c = s.count c := by
  rw [stripSuf]
  split
  · rename_i hmatch
    rw [endsStr] at hmatch
    obtain ⟨t, ht⟩ := (isPre_iff _ _).mp hmatch
    rw [ht]
    have hlen : p.reverse.length = p.length := List.length_reverse p
    rw [← hlen, List.drop_left, List.count_reverse]
    have hs : s.count c = p.count c + t.count c := by
      rw [← List.count_reverse c s, ht, List.count_append, List.count_reverse]
    have hp : p.count c = 0 := List.count_eq_zero.mpr hc
    omega
  · rfl

theorem endsStr_append_sep (p a b : Str) (c : Char) (hcp : c ∉ p)
    (hb : endsStr p b = false) : endsStr p (a ++ c :: b) = false := by
  by_contra hcontra
  rw [Bool.not_eq_false, endsStr] at hcontra
  obtain ⟨t, ht⟩ := (isPre_iff _ _).mp hcontra
  rw [List.reverse_append, List.reverse_cons, List.append_assoc] at ht
  by_cases hlen : p.length ≤ b.length
  · apply absurd hb
    rw [Bool.not_eq_false, endsStr, isPre_iff]
    refine ⟨b.reverse.drop p.length, ?_⟩
    have h1 : (b.reverse ++ ([c] ++ a.reverse)).take p.length = b.reverse.take p.length :=
      List.take_append_of_le_length (by rw [List.length_reverse]; exact hlen)
    have h2 : (p.reverse ++ t).take p.length = p.reverse := by
      have e : p.reverse.length = p.length := List.length_reverse p
      rw [← e, List.take_left]
    rw [ht, h2] at h1
    conv_lhs => rw [← List.take_append_drop p.length b.reverse]
    rw [← h1]
  · push_neg at hlen
    have h1 : (b.reverse ++ ([c] ++ a.reverse)).take (b.length + 1) = b.reverse ++ [c] := by
      have hb' : b.reverse.length = b.length := List.length_reverse b
      rw [← hb', List.take_append]
      simp
    have h2 : (p.reverse ++ t).take (b.length + 1) = p.reverse.take (b.length + 1) :=
      List.take_append_of_le_length (by rw [List.length_reverse]; omega)
    rw [ht, h2] at h1
    have hcmem : c ∈ p.reverse.take (b.length + 1) := by
      rw [h1]
      simp
    exact hcp (List.mem_reverse.mp (List.take_subset _ _ hcmem))

theorem count_dropWhile (p : Char → Bool) (c : Char) (l : Str) (hc : p c = false) :
    (l.dropWhile p).count c = l.count c := by
  conv_rhs => rw [← List.takeWhile_append_dropWhile p l]
  rw [List.count_append]
  have hz : (l.takeWhile p).count c = 0 := by
    rw [List.count_eq_zero]
    intro hmem
    have h2 := List.mem_takeWhile_imp hmem
    rw [hc] at h2
    exact Bool.false_ne_true h2
  omega

theorem count_trimStr (c : Char) (s : Str) (hc : isJsWs c = false) :
    (trimStr s).count c = s.count c := by
  rw [trimStr, List.count_reverse, count_dropWhile _ _ _ hc, List.count_reverse,
    count_dropWhile _ _ _ hc]

theorem dropWhile_head_eq_self (p : Char → Bool) (l : Str)
    (h : ∀ c, l.head? = some c → p c = false) : l.dropWhile p = l := by
  cases l with
  | nil => rfl
  | cons a t => simp [List.dropWhile_cons, h a rfl]

theorem trimStr_eq_self (l : Str)
    (h1 : ∀ c, l.head? = some c → isJsWs c = false)
    (h2 : ∀ c, l.getLast? = some c → isJsWs c = false) : trimStr l = l := by
  rw [trimStr, dropWhile_head_eq_self _ _ h1,
    dropWhile_head_eq_self _ _ (fun c hc => h2 c (by rwa [List.head?_reverse] at hc)),
    List.reverse_reverse]

theorem dropWhile_append_last (p : Char → Bool) (c : Char) (a : Str) (hc : p c = false) :
    ∃ y, List.dropWhile p (a ++ [c]) = y ++ [c] := by
  induction a with
  | nil => exact ⟨[], by simp [List.dropWhile_cons, hc]⟩
  | cons d a' ih =>
    by_cases hd : p d
    · obtain ⟨y, hy⟩ := ih
      exact ⟨y, by simp [List.dropWhile_cons, hd, hy]⟩
    · exact ⟨d :: a', by simp [List.dropWhile_cons, hd]⟩

theorem trimStr_head (c : Char) (xs : Str) (hc : isJsWs c = false) :
    ∃ y, trimStr (c :: xs) = c :: y := by
  have hinner : List.dropWhile isJsWs (c :: xs) = c :: xs :=
    dropWhile_head_eq_self _ _ (fun d hd => by
      rw [List.head?_cons] at hd
      injection hd with h
      rw [← h]
      exact hc)
  rw [trimStr, hinner, List.reverse_cons]
  obtain ⟨y, hy⟩ := dropWhile_append_last isJsWs c xs.reverse hc
  rw [hy]
  exact ⟨y.reverse, by simp⟩

theorem splitSlash_length (l : Str) : (splitSlash l).length = l.count '/' + 1 := by
  induction l with
  | nil => simp [splitSlash]
  | cons c rest ih =>
    by_cases hc : c = '/'
    · subst hc
      simp [splitSlash, List.count_cons, ih]
    · rw [splitSlash, if_neg hc]
      cases hsp : splitSlash rest with
      | nil =>
        rw [hsp] at ih
        simp at ih
      | cons h tl =>
        rw [hsp] at ih
        simp only [List.length_cons] at ih ⊢
        have hcnt : List.count '/' (c :: rest) = List.count '/' rest := by
          simp [List.count_cons, hc]
        rw [hcnt]
        omega

theorem splitSlash_no_slash (l : Str) (h : '/' ∉ l) : splitSlash l = [l] := by
  induction l with
  | nil => rfl
  | cons c rest ih =>
    have hc : c ≠ '/' := fun e => h (e ▸ List.mem_cons_self c rest)
    have hr : '/' ∉ rest := fun m => h (List.mem_cons_of_mem c m)
    rw [splitSlash, if_neg hc, ih hr]

theorem splitSlash_append (a b : Str) (h : '/' ∉ a) :
    splitSlash (a ++ '/' :: b) = a :: splitSlash b := by
  induction a with
  | nil => simp [splitSlash]
  | cons c a' ih =>
    have hc : c ≠ '/' := fun e => h (e ▸ List.mem_cons_self _ _)
    have ha : '/' ∉ a' := fun m => h (List.mem_cons_of_mem _ m)
    rw [List.cons_append, splitSlash, if_neg hc, ih ha]

theorem stripSuf_eq_of_sep (owner name : Str)
    (hgit : endsStr (str ".git") name = false) :
    stripSuf (str ".git") (owner ++ '/' :: name) = owner ++ '/' :: name := by
  rw [stripSuf, endsStr_append_sep (str ".git") owner name '/' (by decide) hgit]
  simp

/-- C2 counterexample: the claim promises `{owner: "OWNER", name: "NAME"}`
for every `OWNER/NAME` input with non-empty segments free of `/`; at
`OWNER = "a"`, `NAME = "b.git"` the parser instead strips the `.git` and
returns name `"b"`. -/
theorem parseRepoUrl_claim_cex :
    RepoManagerPanel.parseRepoUrl (str "a/b.git") ≠ some (str "a", str "b.git") ∧
    RepoManagerPanel.parseRepoUrl (str "a/b.git") = some (str "a", str "b") := by
  decide

/-- C2 (amended): `parseRepoUrl` succeeds with `(o, n)` exactly when the
cleaned input (trim, host strip, `.git` strip) splits on `/` into exactly the
two non-empty segments `o`, `n`; and the three particular URL shapes parse to
`{OWNER, NAME}` provided additionally OWNER starts with no whitespace, NAME
ends with none, and — for the two shapes without the `.git` suffix — NAME
does not itself end in `.git`. -/
theorem parseRepoUrl_spec :
    (∀ url o n, RepoManagerPanel.parseRepoUrl url = some (o, n) ↔
      splitSlash (stripSuf (str ".git") (stripGithubHost (trimStr url))) = [o, n] ∧
        o ≠ [] ∧ n ≠ []) ∧
    (∀ owner name, owner ≠ [] → name ≠ [] → '/' ∉ owner → '/' ∉ name →
      (∀ c, name.getLast? = some c → isJsWs c = false) →
      endsStr (str ".git") name = false →
      RepoManagerPanel.parseRepoUrl
        (str "https://github.com/" ++ owner ++ '/' :: name) = some (owner, name)) ∧
    (∀ owner name, owner ≠ [] → name ≠ [] → '/' ∉ owner → '/' ∉ name →
      (∀ c, owner.head? = some c → isJsWs c = false) →
      (∀ c, name.getLast? = some c → isJsWs c = false) →
      endsStr (str ".git") name = false →
      RepoManagerPanel.parseRepoUrl (owner ++ '/' :: name) = some (owner, name)) ∧
    (∀ owner name, owner ≠ [] → name ≠ [] → '/' ∉ owner → '/' ∉ name →
      RepoManagerPanel.parseRepoUrl
        (str "https://github.com/" ++ owner ++ '/' :: (name ++ str ".git")) =
        some (owner, name)) := by
  refine ⟨?_, ?_, ?_, ?_⟩
  · intro url o n
    simp only [RepoManagerPanel.parseRepoUrl]
    cases hsp : splitSlash (stripSuf (str ".git") (stripGithubHost (trimStr url))) with
    | nil =>
      constructor
      · intro h
        exact Option.noConfusion h
      · rintro ⟨h, -, -⟩
        exact List.noConfusion h
    | cons a tl =>
      cases tl with
      | nil =>
        constructor
        · intro h
          exact Option.noConfusion h
        · rintro ⟨h, -, -⟩
          injection h with h1 h2
          exact List.noConfusion h2
      | cons b tl2 =>
        cases tl2 with
        | nil =>
          show (if a ≠ [] ∧ b ≠ [] then some (a, b) else none) = some (o, n) ↔
            [a, b] = [o, n] ∧ o ≠ [] ∧ n ≠ []
          by_cases hab : a ≠ [] ∧ b ≠ []
          · rw [if_pos hab]
            constructor
            · intro h
              injection h with h1
              injection h1 with h2 h3
              subst h2
              subst h3
              exact ⟨rfl, hab.1, hab.2⟩
            · rintro ⟨h, -, -⟩
              injection h with h1 h2
              injection h2 with h3 h4
              subst h1
              subst h3
              rfl
          · rw [if_neg hab]
            constructor
            · intro h
              exact Option.noConfusion h
            · rintro ⟨h, ho, hn⟩
              injection h with h1 h2
              injection h2 with h3 h4
              subst h1
              subst h3
              exact absurd ⟨ho, hn⟩ hab
        | cons d tl3 =>
          constructor
          · intro h
            exact Option.noConfusion h
          · rintro ⟨h, -, -⟩
            injection h with h1 h2
            injection h2 with h3 h4
            exact List.noConfusion h4
  · intro owner name h1 h2 hso hsn hlast hgit
    simp only [RepoManagerPanel.parseRepoUrl]
    have htrim : trimStr (str "https://github.com/" ++ owner ++ '/' :: name) =
        str "https://github.com/" ++ owner ++ '/' :: name := by
      apply trimStr_eq_self
      · intro c hc
        have e : str "https://github.com/" ++ owner ++ '/' :: name =
            'h' :: (str "ttps://github.com/" ++ owner ++ '/' :: name) := rfl
        rw [e, List.head?_cons] at hc
        injection hc with h
        rw [← h]
        decide
      · intro c hc
        have e : str "https://github.com/" ++ owner ++ '/' :: name =
            (str "https://github.com/" ++ owner ++ ['/']) ++ name := by
          simp [List.append_assoc]
        rw [e, List.getLast?_append_of_ne_nil _ h2] at hc
        exact hlast c hc
    rw [htrim]
    have hhost : stripGithubHost (str "https://github.com/" ++ owner ++ '/' :: name) =
        owner ++ '/' :: name := by
      rw [stripGithubHost, List.append_assoc,
        if_pos (isPre_append (str "https://github.com/") (owner ++ '/' :: name))]
      exact stripPre_append _ _
    rw [hhost,
      stripSuf_eq_of_sep owner name hgit,
      splitSlash_append owner name hso, splitSlash_no_slash name hsn]
    show (if owner ≠ [] ∧ name ≠ [] then some (owner, name) else none) =
      some (owner, name)
    rw [if_pos ⟨h1, h2⟩]
  · intro owner name h1 h2 hso hsn hhead hlast hgit
    simp only [RepoManagerPanel.parseRepoUrl]
    have htrim : trimStr (owner ++ '/' :: name) = owner ++ '/' :: name := by
      apply trimStr_eq_self
      · intro c hc
        cases owner with
        | nil => exact absurd rfl h1
        | cons a t =>
          rw [List.cons_append, List.head?_cons] at hc
          exact hhead c (by rw [List.head?_cons, ← Option.some_inj.mp hc])
      · intro c hc
        have e : owner ++ '/' :: name = (owner ++ ['/']) ++ name := by
          simp [List.append_assoc]
        rw [e, List.getLast?_append_of_ne_nil _ h2] at hc
        exact hlast c hc
    rw [htrim]
    have hcount : List.count '/' (owner ++ '/' :: name) = 1 := by
      rw [List.count_append, List.count_eq_zero.mpr hso]
      have : List.count '/' ('/' :: name) = List.count '/' name + 1 := by
        simp [List.count_cons]
      rw [this, List.count_eq_zero.mpr hsn]
    have hpre1 : isPre (str "https://github.com/") (owner ++ '/' :: name) = false := by
      by_contra hcon
      rw [Bool.not_eq_false] at hcon
      have := count_le_of_isPre '/' _ _ hcon
      rw [hcount] at this
      have h3 : List.count '/' (str "https://github.com/") = 3 := by decide
      omega
    have hpre2 : isPre (str "http://github.com/") (owner ++ '/' :: name) = false := by
      by_contra hcon
      rw [Bool.not_eq_false] at hcon
      have := count_le_of_isPre '/' _ _ hcon
      rw [hcount] at this
      have h3 : List.count '/' (str "http://github.com/") = 3 := by decide
      omega
    have hhost : stripGithubHost (owner ++ '/' :: name) = owner ++ '/' :: name := by
      rw [stripGithubHost, hpre1]
      simp only [Bool.false_eq_true, if_false]
      exact stripPre_of_not _ _ hpre2
    rw [hhost,
      stripSuf_eq_of_sep owner name hgit,
      splitSlash_append owner name hso, splitSlash_no_slash name hsn]
    show (if owner ≠ [] ∧ name ≠ [] then some (owner, name) else none) =
      some (owner, name)
    rw [if_pos ⟨h1, h2⟩]
  · intro owner name h1 h2 hso hsn
    simp only [RepoManagerPanel.parseRepoUrl]
    have htrim : trimStr (str "https://github.com/" ++ owner ++ '/' :: (name ++ str ".git")) =
        str "https://github.com/" ++ owner ++ '/' :: (name ++ str ".git") := by
      apply trimStr_eq_self
      · intro c hc
        have e : str "https://github.com/" ++ owner ++ '/' :: (name ++ str ".git") =
            'h' :: (str "ttps://github.com/" ++ owner ++ '/' :: (name ++ str ".git")) := rfl
        rw [e, List.head?_cons] at hc
        injection hc with h
        rw [← h]
        decide
      · intro c hc
        have e : str "https://github.com/" ++ owner ++ '/' :: (name ++ str ".git") =
            (str "https://github.com/" ++ owner ++ '/' :: name) ++ str ".git" := by
          simp [List.append_assoc]
        rw [e, List.getLast?_append_of_ne_nil _ (by decide)] at hc
        have e2 : (str ".git").getLast? = some 't' := by decide
        rw [e2] at hc
        injection hc with h
        rw [← h]
        decide
    rw [htrim]
    have hhost : stripGithubHost
        (str "https://github.com/" ++ owner ++ '/' :: (name ++ str ".git")) =
        owner ++ '/' :: (name ++ str ".git") := by
      rw [stripGithubHost, List.append_assoc,
        if_pos (isPre_append (str "https://github.com/") (owner ++ '/' :: (name ++ str ".git")))]
      exact stripPre_append _ _
    rw [hhost]
    have hsuf : stripSuf (str ".git") (owner ++ '/' :: (name ++ str ".git")) =
        owner ++ '/' :: name := by
      have e : owner ++ '/' :: (name ++ str ".git") =
          (owner ++ '/' :: name) ++ str ".git" := by
        simp [List.append_assoc]
      rw [e]
      exact stripSuf_append _ _
    rw [hsuf, splitSlash_append owner name hso, splitSlash_no_slash name hsn]
    show (if owner ≠ [] ∧ name ≠ [] then some (owner, name) else none) =
      some (owner, name)
    rw [if_pos ⟨h1, h2⟩]

/-- C2 witness: the three promised URL shapes at `OWNER = "a"`, `NAME = "b"`
all parse to `{owner: "a", name: "b"}`. -/
theorem parseRepoUrl_spec_witness :
    RepoManagerPanel.parseRepoUrl (str "https://github.com/a/b") =
      some (str "a", str "b") ∧
    RepoManagerPanel.parseRepoUrl (str "a/b") = some (str "a", str "b") ∧
    RepoManagerPanel.parseRepoUrl (str "https://github.com/a/b.git") =
      some (str "a", str "b") :=
  ⟨parseRepoUrl_spec.2.1 (str "a") (str "b") (by decide) (by decide) (by decide)
      (by decide) (by decide) (by decide),
    parseRepoUrl_spec.2.2.1 (str "a") (str "b") (by decide) (by decide) (by decide)
      (by decide) (by decide) (by decide) (by decide),
    parseRepoUrl_spec.2.2.2 (str "a") (str "b") (by decide) (by decide) (by decide)
      (by decide)⟩

/-- C9: an input `github.com/OWNER/NAME` — host present, scheme missing — is
always rejected: the host prefix is stripped only together with a scheme, so
the cleaned string still splits into at least three segments. -/
theorem parseRepoUrl_schemeless_rejected (owner name : Str)
    (h1 : owner ≠ []) (h2 : name ≠ []) :
    RepoManagerPanel.parseRepoUrl (str "github.com/" ++ owner ++ '/' :: name) = none := by
  have hg : isJsWs 'g' = false := by decide
  obtain ⟨y, hy⟩ : ∃ y, trimStr (str "github.com/" ++ owner ++ '/' :: name) =
      'g' :: y := by
    have e : str "github.com/" ++ owner ++ '/' :: name =
        'g' :: (str "ithub.com/" ++ owner ++ '/' :: name) := rfl
    rw [e]
    exact trimStr_head 'g' _ hg
  have hcount : 2 ≤ List.count '/' (trimStr (str "github.com/" ++ owner ++ '/' :: name)) := by
    rw [count_trimStr _ _ (by decide), List.count_append]
    have ha : List.count '/' (str "github.com/" ++ owner) =
        List.count '/' (str "github.com/") + List.count '/' owner := List.count_append _ _ _
    have hb : List.count '/' (str "github.com/") = 1 := by decide
    have hc : List.count '/' ('/' :: name) = List.count '/' name + 1 := by
      simp [List.count_cons]
    omega
  have hpre1 : isPre (str "https://github.com/")
      (trimStr (str "github.com/" ++ owner ++ '/' :: name)) = false := by
    rw [hy]
    exact isPre_false_of_head 'h' 'g' _ _ (by decide)
  have hpre2 : isPre (str "http://github.com/")
      (trimStr (str "github.com/" ++ owner ++ '/' :: name)) = false := by
    rw [hy]
    exact isPre_false_of_head 'h' 'g' _ _ (by decide)
  have hhost : stripGithubHost (trimStr (str "github.com/" ++ owner ++ '/' :: name)) =
      trimStr (str "github.com/" ++ owner ++ '/' :: name) := by
    rw [stripGithubHost, hpre1]
    simp only [Bool.false_eq_true, if_false]
    exact stripPre_of_not _ _ hpre2
  have hlen : 3 ≤ (splitSlash (stripSuf (str ".git")
      (trimStr (str "github.com/" ++ owner ++ '/' :: name)))).length := by
    rw [splitSlash_length, stripSuf_count _ _ _ (by decide)]
    omega
  simp only [RepoManagerPanel.parseRepoUrl, hhost]
  cases hsp : splitSlash (stripSuf (str ".git")
      (trimStr (str "github.com/" ++ owner ++ '/' :: name))) with
  | nil => rfl
  | cons a tl =>
    cases tl with
    | nil => rfl
    | cons b tl2 =>
      cases tl2 with
      | nil =>
        rw [hsp] at hlen
        simp at hlen
      | cons d tl3 => rfl

/-- C9 witness: `github.com/a/b` is rejected. -/
theorem parseRepoUrl_schemeless_witness :
    RepoManagerPanel.parseRepoUrl (str "github.com/" ++ str "a" ++ '/' :: str "b") = none :=
  parseRepoUrl_schemeless_rejected (str "a") (str "b") (by decide) (by decide)

/-- C8: the two components implement one and the same logic: the skill-count
aggregator, the URL parser, the display-name formatter and the subtitle
formatter of `RepoManagerPanel.tsx` are extensionally (indeed definitionally)
the same functions as those of `RepoManager.tsx`. -/
theorem panel_dialog_same_logic :
    RepoManagerPanel.getSkillCount = RepoManagerDialog.getSkillCount ∧
    RepoManagerPanel.parseRepoUrl = RepoManagerDialog.parseRepoUrl ∧
    RepoManagerPanel.getRepoDisplayName = RepoManagerDialog.getRepoDisplayName ∧
    RepoManagerPanel.getRepoSubtitle = RepoManagerDialog.getRepoSubtitle :=
  ⟨rfl, rfl, rfl, rfl⟩

/-- C10: in the source-control count, a branch recorded as `""` is treated
exactly like an absent branch, on the repository side and on the skill side:
the falsy-defaulting `x || "main"` maps both to `"main"`. -/
theorem count_blank_branch_eq_absent (repo : SkillRepo)
    (skills : List DiscoverableSkill) :
    RepoManagerPanel.getSkillCount { repo with branch := some [] } skills =
      RepoManagerPanel.getSkillCount { repo with branch := none } skills ∧
    RepoManagerPanel.getSkillCount repo (skills.map blankSkillBranch) =
      RepoManagerPanel.getSkillCount repo skills := by
  constructor
  · rfl
  · cases hty : repo.repoType with
    | zip =>
      simp only [RepoManagerPanel.getSkillCount, hty]
      induction skills with
      | nil => rfl
      | cons sk rest ih =>
        simp only [List.map_cons, List.filter_cons]
        have hname : (blankSkillBranch sk).repoName = sk.repoName := by
          unfold blankSkillBranch; split <;> rfl
        rw [hname]
        split <;> simp [ih]
    | github =>
      simp only [RepoManagerPanel.getSkillCount, hty]
      induction skills with
      | nil => rfl
      | cons sk rest ih =>
        simp only [List.map_cons, List.filter_cons]
        have hown : (blankSkillBranch sk).repoOwner = sk.repoOwner := by
          unfold blankSkillBranch; split <;> rfl
        have hname : (blankSkillBranch sk).repoName = sk.repoName := by
          unfold blankSkillBranch; split <;> rfl
        have hbr : orMain (blankSkillBranch sk).repoBranch = orMain sk.repoBranch := by
          unfold blankSkillBranch
          split
          · rename_i h; rw [h]; rfl
          · rfl
        rw [hown, hname, hbr]
        split <;> simp [ih]

/-- C7: for a package-link repository the skill count is the number of skills
whose `repoName` equals the repository's `name`; the skills' `repoOwner` and
`repoBranch` fields are ignored entirely (rewriting them arbitrarily does not
change the count). -/
theorem count_packageLink (repo : SkillRepo) (skills : List DiscoverableSkill)
    (h : repo.repoType = .zip) :
    RepoManagerPanel.getSkillCount repo skills =
      (skills.filter (fun sk => decide (sk.repoName = repo.name))).length ∧
    ∀ f : DiscoverableSkill → DiscoverableSkill,
      (∀ sk, (f sk).repoName = sk.repoName) →
      RepoManagerPanel.getSkillCount repo (skills.map f) =
        RepoManagerPanel.getSkillCount repo skills := by
  constructor
  · simp only [RepoManagerPanel.getSkillCount, h]
    congr 1
    apply List.filter_congr
    intro sk _
    exact beq_eq_decide_eq sk.repoName repo.name
  · intro f hf
    simp only [RepoManagerPanel.getSkillCount, h]
    induction skills with
    | nil => rfl
    | cons sk rest ih =>
      simp only [List.map_cons, List.filter_cons, hf sk]
      split <;> simp [ih]

/-- C7 witness: a package-link reference named `pack1` against two skills with
`repoName = "pack1"` but arbitrary differing owner/branch fields counts 2. -/
theorem count_packageLink_witness :
    RepoManagerPanel.getSkillCount
      { repoType := .zip, owner := str "zip", name := str "pack1",
        branch := some [], enabled := true, zipUrl := some (str "https://x.com/a.zip") }
      [ { repoOwner := str "o1", repoName := str "pack1", repoBranch := none },
        { repoOwner := str "o2", repoName := str "pack1", repoBranch := some (str "dev") } ] =
      (List.filter (fun sk => decide (sk.repoName = str "pack1"))
        [ ({ repoOwner := str "o1", repoName := str "pack1", repoBranch := none } : DiscoverableSkill),
          { repoOwner := str "o2", repoName := str "pack1", repoBranch := some (str "dev") } ]).length ∧
    RepoManagerPanel.getSkillCount
      { repoType := .zip, owner := str "zip", name := str "pack1",
        branch := some [], enabled := true, zipUrl := some (str "https://x.com/a.zip") }
      [ { repoOwner := str "o1", repoName := str "pack1", repoBranch := none },
        { repoOwner := str "o2", repoName := str "pack1", repoBranch := some (str "dev") } ] = 2 :=
  ⟨(count_packageLink _ _ rfl).1, by decide⟩

/-- C3: the package-link validator checks its rules in order with the first
failure winning: `NameRequired` exactly when the trimmed name is empty;
otherwise `UrlRequired` exactly when the trimmed url is empty; otherwise
`InvalidUrl` exactly when the host URL constructor rejects the trimmed url;
otherwise success, and success always carries the trimmed name/url pair. -/
theorem validatePackageLink_spec (isUrl : Str → Bool) (name url : Str) :
    (RepoManagerPanel.validatePackageLink isUrl name url =
        .nameRequired ↔ trimStr name = []) ∧
    (RepoManagerPanel.validatePackageLink isUrl name url =
        .urlRequired ↔ trimStr name ≠ [] ∧ trimStr url = []) ∧
    (RepoManagerPanel.validatePackageLink isUrl name url =
        .invalidUrl ↔ trimStr name ≠ [] ∧ trimStr url ≠ [] ∧
          isUrl (trimStr url) = false) ∧
    (RepoManagerPanel.validatePackageLink isUrl name url =
        .ok (trimStr name) (trimStr url) ↔ trimStr name ≠ [] ∧
          trimStr url ≠ [] ∧ isUrl (trimStr url) = true) ∧
    (∀ n u, RepoManagerPanel.validatePackageLink isUrl name url = .ok n u →
      n = trimStr name ∧ u = trimStr url) := by
  unfold RepoManagerPanel.validatePackageLink
  split
  · rename_i h1
    simp [h1]
  · rename_i h1
    split
    · rename_i h2
      simp [h1, h2]
    · rename_i h2
      split
      · rename_i h3
        simp [h1, h2, h3]
      · rename_i h3
        rw [Bool.not_eq_false] at h3
        simp only [h1, h2, h3]
        refine ⟨by simp, by simp [h1, h2], by simp, by simp [h1, h2], ?_⟩
        intro n u h
        cases h
        exact ⟨rfl, rfl⟩

/-- C1 counterexample: the claim's predicate defaults only an *absent*
branch to `"main"`, so a repository whose branch is recorded as `""` would
match no skill carrying branch `"main"`; the code's falsy-defaulting counts
that skill. Repo `{owner:"a", name:"b", branch:""}` against the single skill
`{repoOwner:"a", repoName:"b", repoBranch:"main"}`: the code counts 1, the
claim's three-way conjunction counts 0. -/
theorem count_sourceControl_claim_cex :
    RepoManagerPanel.getSkillCount
      { repoType := .github, owner := str "a", name := str "b", branch := some [],
        enabled := true, zipUrl := none }
      [{ repoOwner := str "a", repoName := str "b", repoBranch := some (str "main") }] = 1 ∧
    (List.filter (fun sk : DiscoverableSkill => decide (sk.repoOwner = str "a" ∧
        sk.repoName = str "b" ∧
        sk.repoBranch.getD (str "main") = (some ([] : Str)).getD (str "main")))
      [{ repoOwner := str "a", repoName := str "b", repoBranch := some (str "main") }]).length
      = 0 := by
  decide

/-- C1 (amended): for a source-control repository, `getSkillCount` is the
number of skills satisfying the three-way conjunction owner-equal ∧
name-equal ∧ effective-branch-equal, where the effective branch on both sides
defaults an absent *or empty* branch to `"main"` before comparison. -/
theorem count_sourceControl (repo : SkillRepo) (skills : List DiscoverableSkill)
    (h : repo.repoType = .github) :
    RepoManagerPanel.getSkillCount repo skills =
      (skills.filter (fun sk => decide (sk.repoOwner = repo.owner ∧
        sk.repoName = repo.name ∧
        orMain sk.repoBranch = orMain repo.branch))).length := by
  simp only [RepoManagerPanel.getSkillCount, h]
  congr 1
  apply List.filter_congr
  intro sk _
  by_cases h1 : sk.repoOwner = repo.owner <;>
    by_cases h2 : sk.repoName = repo.name <;>
      by_cases h3 : orMain sk.repoBranch = orMain repo.branch <;>
        simp [beq_eq_decide_eq, h1, h2, h3]

/-- C1 witness: the claim's two concrete examples. A source-control repo
`{owner:"a", name:"b", branch absent}` and the single skill
`{repoOwner:"a", repoName:"b", repoBranch absent}` count 1; the same repo
against a skill with `repoBranch:"dev"` counts 0. -/
theorem count_sourceControl_witness :
    (RepoManagerPanel.getSkillCount
      { repoType := .github, owner := str "a", name := str "b", branch := none,
        enabled := true, zipUrl := none }
      [{ repoOwner := str "a", repoName := str "b", repoBranch := none }] =
      (List.filter (fun sk : DiscoverableSkill => decide (sk.repoOwner = str "a" ∧
          sk.repoName = str "b" ∧ orMain sk.repoBranch = orMain none))
        [{ repoOwner := str "a", repoName := str "b", repoBranch := none }]).length) ∧
    RepoManagerPanel.getSkillCount
      { repoType := .github, owner := str "a", name := str "b", branch := none,
        enabled := true, zipUrl := none }
      [{ repoOwner := str "a", repoName := str "b", repoBranch := none }] = 1 ∧
    RepoManagerPanel.getSkillCount
      { repoType := .github, owner := str "a", name := str "b", branch := none,
        enabled := true, zipUrl := none }
      [{ repoOwner := str "a", repoName := str "b", repoBranch := some (str "dev") }] = 0 :=
  ⟨count_sourceControl _ _ rfl, by decide, by decide⟩

/-- C4 counterexample: after a successful add, the URL and branch fields are
not the *only* fields that change — the handler also resets a previously
displayed error to `""` (`setError("")` runs before anything else). Starting
from a state with `error = "boom"` and a parsing URL, a successful submit
yields a state different from "clear URL and branch only". -/
theorem github_submit_claim_cex :
    (RepoManagerPanel.handleAddGithub id (fun _ => .ok)
      { repoUrl := str "a/b", branch := [], zipName := str "n", zipUrl := str "u",
        error := str "boom" }).1 ≠
    { repoUrl := ([] : Str), branch := [], zipName := str "n", zipUrl := str "u",
      error := str "boom" } := by
  decide

/-- C4 (amended): for a source-control submission whose URL parses, the
coordinator calls the external add exactly once, with branch `"main"` when
the branch field was blank and the field's value otherwise, and
`enabled = true`; on success it clears the URL and branch fields and resets
the error line to empty, leaving the zip-form fields untouched; on failure
the submitted fields all keep their values and only the error message is
surfaced. -/
theorem github_submit_spec (t : Str → Str) (onAdd : SkillRepo → AddOutcome)
    (s : FormState) (owner name : Str) (repo : SkillRepo)
    (hp : RepoManagerPanel.parseRepoUrl s.repoUrl = some (owner, name))
    (hrepo : repo =
      { repoType := .github, owner := owner, name := name,
        branch := some (if s.branch = [] then str "main" else s.branch),
        enabled := true, zipUrl := none }) :
    (RepoManagerPanel.handleAddGithub t onAdd s).2 = [repo] ∧
    (onAdd repo = .ok →
      (RepoManagerPanel.handleAddGithub t onAdd s).1 =
        { s with repoUrl := [], branch := [], error := [] }) ∧
    (∀ m, onAdd repo = .fail (some m) →
      (RepoManagerPanel.handleAddGithub t onAdd s).1 = { s with error := m }) ∧
    (onAdd repo = .fail none →
      (RepoManagerPanel.handleAddGithub t onAdd s).1 =
        { s with error := t (str "skills.repo.addFailed") }) := by
  refine ⟨?_, ?_, ?_, ?_⟩
  · simp only [RepoManagerPanel.handleAddGithub, hp, ← hrepo]
    cases honAdd : onAdd repo with
    | ok => simp only [honAdd]
    | fail e => simp only [honAdd]
  · intro hok
    simp only [RepoManagerPanel.handleAddGithub, hp, ← hrepo, hok]
  · intro m hm
    simp only [RepoManagerPanel.handleAddGithub, hp, ← hrepo, hm]
  · intro hfail
    simp only [RepoManagerPanel.handleAddGithub, hp, ← hrepo, hfail]

/-- C4 witness: concrete successful and failing submissions. -/
theorem github_submit_spec_witness :
    (RepoManagerPanel.handleAddGithub id (fun _ => .ok)
      { repoUrl := str "a/b", branch := [], zipName := str "n", zipUrl := str "u",
        error := str "old" }).2 =
      [{ repoType := .github, owner := str "a", name := str "b",
         branch := some (str "main"), enabled := true, zipUrl := none }] ∧
    (RepoManagerPanel.handleAddGithub id (fun _ => .ok)
      { repoUrl := str "a/b", branch := [], zipName := str "n", zipUrl := str "u",
        error := str "old" }).1 =
      { repoUrl := [], branch := [], zipName := str "n", zipUrl := str "u",
        error := [] } ∧
    (RepoManagerPanel.handleAddGithub id (fun _ => .fail (some (str "dup")))
      { repoUrl := str "a/b", branch := [], zipName := str "n", zipUrl := str "u",
        error := str "old" }).1 =
      { repoUrl := str "a/b", branch := [], zipName := str "n", zipUrl := str "u",
        error := str "dup" } :=
  ⟨by simpa using (github_submit_spec id (fun _ => .ok) _ (str "a") (str "b") _
      (by decide) rfl).1,
    by simpa using (github_submit_spec id (fun _ => .ok) _ (str "a") (str "b") _
      (by decide) rfl).2.1 rfl,
    by simpa using (github_submit_spec id (fun _ => .fail (some (str "dup"))) _
      (str "a") (str "b") _ (by decide) rfl).2.2.1 (str "dup") rfl⟩

/-- C5: every locally detected validation failure — an unparsable
source-control URL, or a package-link name/url the validator rejects — sets
the matching specific error and makes no external add call at all. -/
theorem validation_failure_no_call (t : Str → Str) (isUrl : Str → Bool)
    (onAdd : SkillRepo → AddOutcome) (s : FormState) :
    (RepoManagerPanel.parseRepoUrl s.repoUrl = none →
      RepoManagerPanel.handleAddGithub t onAdd s =
        ({ s with error := t (str "skills.repo.invalidUrl") }, [])) ∧
    (RepoManagerPanel.validatePackageLink isUrl s.zipName s.zipUrl = .nameRequired →
      RepoManagerPanel.handleAddZip t isUrl onAdd s =
        ({ s with error := t (str "skills.repo.nameRequired") }, [])) ∧
    (RepoManagerPanel.validatePackageLink isUrl s.zipName s.zipUrl = .urlRequired →
      RepoManagerPanel.handleAddZip t isUrl onAdd s =
        ({ s with error := t (str "skills.repo.zipUrlRequired") }, [])) ∧
    (RepoManagerPanel.validatePackageLink isUrl s.zipName s.zipUrl = .invalidUrl →
      RepoManagerPanel.handleAddZip t isUrl onAdd s =
        ({ s with error := t (str "skills.repo.invalidZipUrl") }, [])) := by
  refine ⟨?_, ?_, ?_, ?_⟩
  · intro hp
    simp only [RepoManagerPanel.handleAddGithub, hp]
  · intro hv
    simp only [RepoManagerPanel.handleAddZip, hv]
  · intro hv
    simp only [RepoManagerPanel.handleAddZip, hv]
  · intro hv
    simp only [RepoManagerPanel.handleAddZip, hv]

/-- C5 witness: with every field blank, the source-control submit reports the
invalid-URL error and the package-link submit reports the name-required
error; neither calls the external add. -/
theorem validation_failure_no_call_witness :
    RepoManagerPanel.handleAddGithub id (fun _ => .ok)
      { repoUrl := [], branch := [], zipName := [], zipUrl := [], error := [] } =
      ({ repoUrl := [], branch := [], zipName := [], zipUrl := [],
         error := str "skills.repo.invalidUrl" }, []) ∧
    RepoManagerPanel.handleAddZip id (fun _ => true) (fun _ => .ok)
      { repoUrl := [], branch := [], zipName := [], zipUrl := [], error := [] } =
      ({ repoUrl := [], branch := [], zipName := [], zipUrl := [],
         error := str "skills.repo.nameRequired" }, []) :=
  ⟨(validation_failure_no_call id (fun _ => true) (fun _ => .ok) _).1 (by decide),
    (validation_failure_no_call id (fun _ => true) (fun _ => .ok) _).2.1 (by decide)⟩

/-- C6: every rejection of the external add — on either submission path — is
caught and surfaced as exactly one user-facing string: the raised error's
message when it is a JS `Error`, the generic add-failed message otherwise. -/
theorem add_failure_surfaced (t : Str → Str) (isUrl : Str → Bool)
    (onAdd : SkillRepo → AddOutcome) (s : FormState) :
    (∀ owner name e,
      RepoManagerPanel.parseRepoUrl s.repoUrl = some (owner, name) →
      onAdd { repoType := .github, owner := owner, name := name,
              branch := some (if s.branch = [] then str "main" else s.branch),
              enabled := true, zipUrl := none } = .fail e →
      (RepoManagerPanel.handleAddGithub t onAdd s).1.error =
        (match e with
          | some m => m
          | none => t (str "skills.repo.addFailed"))) ∧
    (∀ name url e,
      RepoManagerPanel.validatePackageLink isUrl s.zipName s.zipUrl = .ok name url →
      onAdd { repoType := .zip, owner := str "zip", name := name, branch := some [],
              enabled := true, zipUrl := some url } = .fail e →
      (RepoManagerPanel.handleAddZip t isUrl onAdd s).1.error =
        (match e with
          | some m => m
          | none => t (str "skills.repo.addFailed"))) := by
  constructor
  · intro owner name e hp hfail
    simp only [RepoManagerPanel.handleAddGithub, hp, hfail]
  · intro name url e hv hfail
    simp only [RepoManagerPanel.handleAddZip, hv, hfail]

/-- C6 witness: a rejection carrying message `"oops"` surfaces `"oops"` on
both paths; a message-less rejection surfaces the generic add-failed text. -/
theorem add_failure_surfaced_witness :
    (RepoManagerPanel.handleAddGithub id
      (fun _ => .fail (some (str "oops")))
      { repoUrl := str "a/b", branch := [], zipName := str "foo",
        zipUrl := str "https://x.com/a.zip", error := [] }).1.error = str "oops" ∧
    (RepoManagerPanel.handleAddZip id (fun _ => true)
      (fun _ => .fail (some (str "oops")))
      { repoUrl := str "a/b", branch := [], zipName := str "foo",
        zipUrl := str "https://x.com/a.zip", error := [] }).1.error = str "oops" ∧
    (RepoManagerPanel.handleAddGithub id (fun _ => .fail none)
      { repoUrl := str "a/b", branch := [], zipName := str "foo",
        zipUrl := str "https://x.com/a.zip", error := [] }).1.error =
      str "skills.repo.addFailed" :=
  ⟨(add_failure_surfaced id (fun _ => true) (fun _ => .fail (some (str "oops"))) _).1
      (str "a") (str "b") (some (str "oops")) (by decide) rfl,
    (add_failure_surfaced id (fun _ => true) (fun _ => .fail (some (str "oops"))) _).2
      (str "foo") (str "https://x.com/a.zip") (some (str "oops")) (by decide) rfl,
    (add_failure_surfaced id (fun _ => true) (fun _ => .fail none) _).1
      (str "a") (str "b") none (by decide) rfl⟩

/-- C3 witness: the spec's four concrete validator cases, with the host URL
constructor modelled as accepting/rejecting accordingly. -/
theorem validatePackageLink_spec_witness :
    RepoManagerPanel.validatePackageLink (fun _ => true) []
      (str "https://x.com/a.zip") = .nameRequired ∧
    RepoManagerPanel.validatePackageLink (fun _ => true) (str "foo") [] =
      .urlRequired ∧
    RepoManagerPanel.validatePackageLink (fun _ => false) (str "foo")
      (str "not a url") = .invalidUrl ∧
    RepoManagerPanel.validatePackageLink (fun _ => true) (str "foo")
      (str "https://x.com/a.zip") =
      .ok (str "foo") (str "https://x.com/a.zip") :=
  ⟨(validatePackageLink_spec (fun _ => true) [] (str "https://x.com/a.zip")).1.mpr
      (by decide),
    (validatePackageLink_spec (fun _ => true) (str "foo") []).2.1.mpr
      ⟨by decide, by decide⟩,
    (validatePackageLink_spec (fun _ => false) (str "foo") (str "not a url")).2.2.1.mpr
      ⟨by decide, by decide, rfl⟩,
    (validatePackageLink_spec (fun _ => true) (str "foo")
        (str "https://x.com/a.zip")).2.2.2.1.mpr ⟨by decide, by decide, rfl⟩⟩
